import Mathlib

/-!
Verification of the mycelium distributed RAM replication core against its
natural-language specification.

The definitions below shallowly embed the Rust reference implementation in
  src/.kiro/specs/mycnet/reference/adaptive-throttling-system.rs
  src/.kiro/specs/mycnet/reference/virtual-computer/distributed-ram-system.rs
`f32` arithmetic is modelled exactly with `ℚ` (the claims concern exact
branch conditions and algebraic identities at values all of which are
representable sample points; no rounding behaviour is at stake in any claim).
`powf` appears in the source only as `normalized_level.powf(exponent)`; the
embedding carries the exponent as a natural number so that rational
exponentiation stays inside `ℚ` and the definitions remain executable.
Rust panics (integer division by zero, `slice::chunks` with chunk size 0)
are modelled as `Option.none`; `Result` is modelled as `Except`.
-/

namespace Mycelium

/-- VM identifier, `pub type VMId = String` in distributed-ram-system.rs. -/
abbrev VMId := String

/-- Node identifier, `pub type NodeId = String` in distributed-ram-system.rs. -/
abbrev NodeId := String

/-- `enum ThrottlingCurve` (identical in adaptive-throttling-system.rs:29-38 and
distributed-ram-system.rs:37-47).  The `Exponential` exponent is `f32` in the
source; it is carried here as a natural number (see the file header). -/
inductive ThrottlingCurve where
  | Linear : ThrottlingCurve
  | Exponential (exponent : ℕ) : ThrottlingCurve
  | Custom (control_points : List (ℚ × ℚ)) : ThrottlingCurve
deriving DecidableEq

/-- `struct AdaptiveThrottlingConfig` (adaptive-throttling-system.rs:13-25).
The throttling-relevant fields coincide with those of `DistributedRAMConfig`,
and `calculate_throttling_intensity` / `interpolate_custom_curve` are
line-identical in the two source files, so the evaluator is embedded once,
over this record. -/
structure AdaptiveThrottlingConfig where
  throttle_threshold : ℚ
  max_throttling_intensity : ℚ
  throttling_curve : ThrottlingCurve
  emergency_pause_enabled : Bool
deriving DecidableEq

/-- `struct DistributedRAMConfig` (distributed-ram-system.rs:13-34).
`replication_interval: Duration` is carried in milliseconds. -/
structure DistributedRAMConfig where
  max_buffer_size : ℕ
  throttle_threshold : ℚ
  max_throttling_intensity : ℚ
  throttling_curve : ThrottlingCurve
  emergency_pause_enabled : Bool
  replication_interval_ms : ℕ
  backup_node_count : ℕ
deriving DecidableEq

/-- `struct MemoryPage` (distributed-ram-system.rs:364-369): address `u64`,
size `usize`, `data: Vec<u8>`, `timestamp: Instant` (carried as a tick). -/
structure MemoryPage where
  address : ℕ
  size : ℕ
  data : List ℕ
  timestamp : ℕ
deriving DecidableEq

/-- `struct BackupNode { pub id: NodeId }` (distributed-ram-system.rs:399). -/
structure BackupNode where
  id : NodeId
deriving DecidableEq

/-- `enum DistributedRAMError` (distributed-ram-system.rs:380-395). -/
inductive DistributedRAMError where
  | VMNotFound (vm : VMId)
  | ReplicationFailed (msg : String)
  | ThrottlingFailed (msg : String)
  | MigrationFailed (msg : String)
  | BackupNodeError (msg : String)
deriving DecidableEq

/-- `interpolate_custom_curve` (adaptive-throttling-system.rs:97-111,
identical at distributed-ram-system.rs:247-261): linear scan over consecutive
control-point pairs (`control_points.windows(2)`); inside the first bracketing
window return the linear interpolation, otherwise fall through to
`max_throttling_intensity`.  `M` is `self.config.max_throttling_intensity`. -/
def interpolate_custom_curve (M level : ℚ) : List (ℚ × ℚ) → ℚ
  | (x1, y1) :: (x2, y2) :: rest =>
      if x1 ≤ level ∧ level ≤ x2 then
        y1 + (level - x1) / (x2 - x1) * (y2 - y1)
      else
        interpolate_custom_curve M level ((x2, y2) :: rest)
  | _ => M

/-- `calculate_throttling_intensity` (adaptive-throttling-system.rs:76-94,
identical at distributed-ram-system.rs:226-244). -/
def calculate_throttling_intensity (config : AdaptiveThrottlingConfig)
    (buffer_level : ℚ) : ℚ :=
  if buffer_level ≤ config.throttle_threshold then 0
  else
    let normalized_level :=
      (buffer_level - config.throttle_threshold) / (1 - config.throttle_threshold)
    match config.throttling_curve with
    | ThrottlingCurve.Linear =>
        config.max_throttling_intensity * normalized_level
    | ThrottlingCurve.Exponential exponent =>
        config.max_throttling_intensity * normalized_level ^ exponent
    | ThrottlingCurve.Custom control_points =>
        interpolate_custom_curve config.max_throttling_intensity
          normalized_level control_points

/-- Claim C1: for every configuration and every `buffer_level` at or below
`throttle_threshold`, `calculate_throttling_intensity` returns 0, regardless
of the configured curve (the guard at adaptive-throttling-system.rs:77 fires
before any curve is consulted). -/
theorem calculate_throttling_intensity_zero_below_threshold
    (config : AdaptiveThrottlingConfig) (buffer_level : ℚ)
    (h : buffer_level ≤ config.throttle_threshold) :
    calculate_throttling_intensity config buffer_level = 0 := by
  simp [calculate_throttling_intensity, h]

/-- Claim C1 witness: the theorem applied at the linear test configuration
(threshold 7/10) and buffer level 1/2. -/
theorem calculate_throttling_intensity_zero_below_threshold_witness :
    (1 : ℚ) / 2 ≤ (7 : ℚ) / 10 ∧
      calculate_throttling_intensity
        ⟨7/10, 9/10, ThrottlingCurve.Linear, true⟩ (1/2) = 0 :=
  ⟨by norm_num,
   calculate_throttling_intensity_zero_below_threshold
     ⟨7/10, 9/10, ThrottlingCurve.Linear, true⟩ (1/2) (by norm_num)⟩

/-- Range condition on a curve under which the evaluator's output can be
bounded: `Custom` control points must have their `y` values inside
`[0, max_throttling_intensity]`; `Linear` and `Exponential` need nothing. -/
def curve_range_ok (M : ℚ) : ThrottlingCurve → Prop
  | ThrottlingCurve.Custom pts => ∀ p ∈ pts, 0 ≤ p.2 ∧ p.2 ≤ M
  | _ => True

/-- Helper: when every control point has `y ∈ [0, M]`, the custom-curve
interpolation stays in `[0, M]` at every level (the matched window yields a
convex combination of its endpoints; the fall-through yields `M`). -/
theorem interpolate_custom_curve_bounded (M level : ℚ) (hM : 0 ≤ M) :
    ∀ pts : List (ℚ × ℚ), (∀ p ∈ pts, 0 ≤ p.2 ∧ p.2 ≤ M) →
      0 ≤ interpolate_custom_curve M level pts ∧
        interpolate_custom_curve M level pts ≤ M := by
  intro pts
  induction pts with
  | nil => intro _; exact ⟨hM, le_refl M⟩
  | cons p rest ih =>
    intro hpts
    cases rest with
    | nil => exact ⟨hM, le_refl M⟩
    | cons q rest2 =>
      obtain ⟨x1, y1⟩ := p
      obtain ⟨x2, y2⟩ := q
      have hy1 : 0 ≤ y1 ∧ y1 ≤ M := hpts (x1, y1) (by simp)
      have hy2 : 0 ≤ y2 ∧ y2 ≤ M := hpts (x2, y2) (by simp)
      rw [interpolate_custom_curve]
      split
      · rename_i hcond
        obtain ⟨h1, h2⟩ := hcond
        have hx12 : x1 ≤ x2 := le_trans h1 h2
        set s : ℚ := (level - x1) / (x2 - x1) with hs
        have hs0 : 0 ≤ s := by
          rcases eq_or_lt_of_le hx12 with heq | hlt
          · have : s = 0 := by rw [hs, ← heq, sub_self, div_zero]
            rw [this]
          · exact div_nonneg (by linarith) (by linarith)
        have hs1 : s ≤ 1 := by
          rcases eq_or_lt_of_le hx12 with heq | hlt
          · have : s = 0 := by rw [hs, ← heq, sub_self, div_zero]
            rw [this]; norm_num
          · rw [hs, div_le_one (by linarith)]; linarith
        have e : y1 + (level - x1) / (x2 - x1) * (y2 - y1)
            = (1 - s) * y1 + s * y2 := by rw [hs]; ring
        rw [e]
        constructor
        · exact add_nonneg (mul_nonneg (by linarith) hy1.1) (mul_nonneg hs0 hy2.1)
        · calc (1 - s) * y1 + s * y2
              ≤ (1 - s) * M + s * M :=
                add_le_add (mul_le_mul_of_nonneg_left hy1.2 (by linarith))
                  (mul_le_mul_of_nonneg_left hy2.2 hs0)
            _ = M := by ring
      · exact ih (fun r hr => hpts r (List.mem_cons_of_mem _ hr))

/-- Claim C2 counterexample: the code performs no clamping at all.  With the
Linear curve, threshold 1/2 and `max_throttling_intensity` 9/10, a buffer
level of 3/2 (above 1.0) yields intensity 9/5, which is outside
`[0, max_throttling_intensity]`; the normalized level (here 2) is likewise
never clamped to `[0,1]` before use. -/
theorem calculate_throttling_intensity_not_clamped_above_one :
    calculate_throttling_intensity
        ⟨1/2, 9/10, ThrottlingCurve.Linear, true⟩ (3/2) = 9/5 ∧
      ¬ ((9 : ℚ)/5 ≤ 9/10) := by
  constructor
  · norm_num [calculate_throttling_intensity]
  · norm_num

/-- Claim C2 amended: no clamping is performed; instead, for every
`buffer_level ≤ 1`, a nonnegative `max_throttling_intensity`, a threshold
below 1, and a curve whose custom control points (if any) have `y` values in
`[0, max_throttling_intensity]`, the result lies in
`[0, max_throttling_intensity]` — because the normalized level then lands in
`[0,1]` arithmetically, not by clamping. -/
theorem calculate_throttling_intensity_bounded
    (config : AdaptiveThrottlingConfig) (buffer_level : ℚ)
    (hM : 0 ≤ config.max_throttling_intensity)
    (hthr : config.throttle_threshold < 1)
    (hb : buffer_level ≤ 1)
    (hcurve : curve_range_ok config.max_throttling_intensity
      config.throttling_curve) :
    0 ≤ calculate_throttling_intensity config buffer_level ∧
      calculate_throttling_intensity config buffer_level ≤
        config.max_throttling_intensity := by
  obtain ⟨thr, M, curve, ep⟩ := config
  simp only at hM hthr hcurve
  rw [calculate_throttling_intensity]
  split
  · exact ⟨le_refl 0, hM⟩
  · rename_i hgt
    push_neg at hgt
    simp only at hgt ⊢
    have hd : 0 < 1 - thr := by linarith
    have ht0 : 0 ≤ (buffer_level - thr) / (1 - thr) :=
      div_nonneg (by linarith) (le_of_lt hd)
    have ht1 : (buffer_level - thr) / (1 - thr) ≤ 1 := by
      rw [div_le_one hd]; linarith
    cases curve with
    | Linear =>
        refine ⟨mul_nonneg hM ht0, ?_⟩
        calc M * ((buffer_level - thr) / (1 - thr)) ≤ M * 1 :=
              mul_le_mul_of_nonneg_left ht1 hM
          _ = M := mul_one M
    | Exponential exponent =>
        refine ⟨mul_nonneg hM (pow_nonneg ht0 exponent), ?_⟩
        calc M * ((buffer_level - thr) / (1 - thr)) ^ exponent ≤ M * 1 :=
              mul_le_mul_of_nonneg_left (pow_le_one₀ ht0 ht1) hM
          _ = M := mul_one M
    | Custom control_points =>
        exact interpolate_custom_curve_bounded M _ hM control_points hcurve

/-- Claim C2 witness: the amended bound applied at the Linear configuration
with threshold 1/2, maximum intensity 9/10 and buffer level 3/4. -/
theorem calculate_throttling_intensity_bounded_witness :
    0 ≤ calculate_throttling_intensity
        ⟨1/2, 9/10, ThrottlingCurve.Linear, true⟩ (3/4) ∧
      calculate_throttling_intensity
        ⟨1/2, 9/10, ThrottlingCurve.Linear, true⟩ (3/4) ≤ 9/10 :=
  calculate_throttling_intensity_bounded
    ⟨1/2, 9/10, ThrottlingCurve.Linear, true⟩ (3/4)
    (by norm_num) (by norm_num) (by norm_num) (by simp [curve_range_ok])

/-- Model of Rust's `slice::chunks(k)` for `k ≥ 1`: contiguous chunks of `k`
elements, the last chunk possibly shorter.  (For `k ≥ 1`,
`drop (k-1) l = drop k (a :: l)`, so each step consumes one full chunk.)
The `k = 0` case, on which `slice::chunks` panics, is guarded away by the
caller below. -/
def chunksOf {α : Type} (k : ℕ) : List α → List (List α)
  | [] => []
  | a :: l => (a :: l).take k :: chunksOf k (l.drop (k - 1))
termination_by l => l.length
decreasing_by
  simp only [List.length_drop, List.length_cons]
  omega

/-- `ParallelTransferSystem::chunk_pages_for_distribution`
(distributed-ram-system.rs:325-331): `chunk_size = (len + node_count - 1) /
node_count` (integer arithmetic), then `pages.chunks(chunk_size)`.
`none` models the Rust panic: `slice::chunks` panics when `chunk_size == 0`
(which happens exactly when `pages` is empty and `node_count ≥ 1`), and
division panics when `node_count == 0`; Lean's truncated `Nat` subtraction
and division-by-zero conventions make both cases land in `chunk_size = 0`. -/
def chunk_pages_for_distribution (pages : List MemoryPage) (node_count : ℕ) :
    Option (List (List MemoryPage)) :=
  let chunk_size := (pages.length + node_count - 1) / node_count
  if chunk_size = 0 then none
  else some (chunksOf chunk_size pages)

/-- Helper (fuelled form): for `k ≥ 1`, concatenating the chunks gives back
the original list. -/
theorem chunksOf_flatten_aux {α : Type} (k : ℕ) (hk : 1 ≤ k) :
    ∀ n (l : List α), l.length ≤ n → (chunksOf k l).flatten = l := by
  intro n
  induction n with
  | zero =>
    intro l hl
    have : l = [] := List.length_eq_zero.mp (Nat.le_zero.mp hl)
    subst this
    simp [chunksOf]
  | succ n ih =>
    intro l hl
    cases l with
    | nil => simp [chunksOf]
    | cons a l =>
      obtain ⟨k1, rfl⟩ : ∃ k1, k = k1 + 1 := ⟨k - 1, by omega⟩
      rw [chunksOf]
      simp only [Nat.add_sub_cancel]
      have hlen : (l.drop k1).length ≤ n := by
        simp only [List.length_drop]
        simp only [List.length_cons] at hl
        omega
      rw [List.flatten_cons, ih _ hlen, List.take_succ_cons]
      exact congrArg (a :: ·) (List.take_append_drop k1 l)

/-- Helper: for `k ≥ 1`, concatenating the chunks gives back the list. -/
theorem chunksOf_flatten {α : Type} (k : ℕ) (hk : 1 ≤ k) (l : List α) :
    (chunksOf k l).flatten = l :=
  chunksOf_flatten_aux k hk l.length l (le_refl _)

/-- Helper: for `k ≥ 1` and `l.length ≤ n * k`, at most `n` chunks arise. -/
theorem chunksOf_length_le {α : Type} (k : ℕ) (hk : 1 ≤ k) :
    ∀ n (l : List α), l.length ≤ n * k → (chunksOf k l).length ≤ n := by
  intro n
  induction n with
  | zero =>
    intro l hl
    have : l = [] := List.length_eq_zero.mp (by omega)
    subst this
    simp [chunksOf]
  | succ n ih =>
    intro l hl
    cases l with
    | nil => simp [chunksOf]
    | cons a l =>
      rw [chunksOf]
      simp only [List.length_cons, Nat.succ_le_succ_iff]
      apply ih
      simp only [List.length_drop]
      simp only [List.length_cons, Nat.succ_mul] at hl ⊢
      omega

/-- Claim C3: the partitioning helper does not handle the empty page list —
`chunk_size` computes to `(0 + 1 - 1) / 1 = 0` and Rust's `slice::chunks`
panics on a zero chunk size (modelled as `none`), so the claimed invariant
fails for `len(pages) = 0` even with `node_count = 1`. -/
theorem chunk_pages_for_distribution_empty_panics :
    chunk_pages_for_distribution [] 1 = none := rfl

/-- Claim C10: for a non-empty page list and `node_count = nodes.length ≥ 1`,
the partitioning succeeds, produces at most `nodes.length` chunks, the `zip`
pairing in `replicate_pages_parallel` (distributed-ram-system.rs:305) keeps
every chunk, and the chunks concatenate back to the original pages. -/
theorem chunk_pages_zip_covers (pages : List MemoryPage)
    (nodes : List BackupNode) (hp : pages ≠ []) (hn : 1 ≤ nodes.length) :
    ∃ chunks, chunk_pages_for_distribution pages nodes.length = some chunks ∧
      chunks.length ≤ nodes.length ∧
      (chunks.zip nodes).map Prod.fst = chunks ∧
      chunks.flatten = pages := by
  have hplen : 1 ≤ pages.length := by
    cases pages with
    | nil => exact absurd rfl hp
    | cons a l => simp
  set n := nodes.length with hnn
  set c := (pages.length + n - 1) / n with hc
  have hdm := Nat.div_add_mod (pages.length + n - 1) n
  have hmlt : (pages.length + n - 1) % n < n := Nat.mod_lt _ (by omega)
  have hc1 : 1 ≤ c := by
    rw [hc, Nat.one_le_div_iff (by omega)]
    omega
  have hcover : pages.length ≤ n * c := by
    rw [hc]
    omega
  have hlen := chunksOf_length_le c hc1 n pages (by omega)
  refine ⟨chunksOf c pages, ?_, hlen, ?_, chunksOf_flatten c hc1 pages⟩
  · rw [chunk_pages_for_distribution]
    simp only [← hc]
    rw [if_neg (by omega)]
  · exact List.map_fst_zip _ _ hlen

/-- Claim C10 witness: three concrete pages over two backup nodes — two
chunks arise, both are paired, and they concatenate to the input. -/
theorem chunk_pages_zip_covers_witness :
    ∃ chunks,
      chunk_pages_for_distribution
          [⟨0, 4096, [], 0⟩, ⟨4096, 4096, [], 0⟩, ⟨8192, 4096, [], 1⟩]
          ([⟨"n1"⟩, ⟨"n2"⟩] : List BackupNode).length = some chunks ∧
        chunks.length ≤ ([⟨"n1"⟩, ⟨"n2"⟩] : List BackupNode).length ∧
        (chunks.zip ([⟨"n1"⟩, ⟨"n2"⟩] : List BackupNode)).map Prod.fst =
          chunks ∧
        chunks.flatten =
          [⟨0, 4096, [], 0⟩, ⟨4096, 4096, [], 0⟩, ⟨8192, 4096, [], 1⟩] :=
  chunk_pages_zip_covers
    [⟨0, 4096, [], 0⟩, ⟨4096, 4096, [], 0⟩, ⟨8192, 4096, [], 1⟩]
    [⟨"n1"⟩, ⟨"n2"⟩] (by simp) (by simp)

/-- Model of the source's polling pattern
`while get_buffer_level(..) > limit { sleep(..) }`: `levels j` is the value
the `j`-th call to `get_buffer_level` returns, `fuel` bounds the number of
iterations (`none` models the loop still running when fuel runs out), and
the returned list records every observation made, the exiting one last.
Note the loop exits as soon as an observation is `≤ limit` — equality with
`limit` already exits. -/
def pollUntilLE (limit : ℚ) (levels : ℕ → ℚ) : ℕ → ℕ → Option (List ℚ)
  | 0, _ => none
  | fuel + 1, i =>
      if limit < levels i then
        Option.map (fun rest => levels i :: rest)
          (pollUntilLE limit levels fuel (i + 1))
      else
        some [levels i]

/-- Helper: a finished poll ends with an observation `≤ limit`, and every
earlier observation was `> limit`. -/
theorem pollUntilLE_spec (limit : ℚ) (levels : ℕ → ℚ) :
    ∀ fuel i obs, pollUntilLE limit levels fuel i = some obs →
      ∃ pre final, obs = pre ++ [final] ∧ final ≤ limit ∧
        ∀ q ∈ pre, limit < q := by
  intro fuel
  induction fuel with
  | zero => intro i obs h; simp [pollUntilLE] at h
  | succ fuel ih =>
    intro i obs h
    rw [pollUntilLE] at h
    split at h
    · rename_i hgt
      cases hrec : pollUntilLE limit levels fuel (i + 1) with
      | none => rw [hrec] at h; simp at h
      | some rest =>
        rw [hrec] at h
        simp only [Option.map_some', Option.some.injEq] at h
        obtain ⟨pre, final, rfl, hfin, hpre⟩ := ih (i + 1) rest hrec
        refine ⟨levels i :: pre, final, by simp [← h], hfin, ?_⟩
        intro q hq
        rcases List.mem_cons.mp hq with rfl | hq
        · exact hgt
        · exact hpre q hq
    · rename_i hle
      push_neg at hle
      simp only [Option.some.injEq] at h
      subst h
      exact ⟨[], levels i, rfl, hle, by simp⟩

/-- Events issued by `DistributedRAMManager::execute_planned_migration`
(distributed-ram-system.rs:143-158), in program order. -/
inductive MigrationEvent where
  | initiateTurboCatchup
  | observeBufferLevel (level : ℚ)
  | pauseAndCaptureFinalState
  | transferFinalState
  | resumeVmOnTarget
deriving DecidableEq

/-- `execute_planned_migration` (distributed-ram-system.rs:143-158) as the
trace of its collaborator calls: Phase 1 requests turbo catchup and polls
`get_buffer_level` (values supplied by `levels`) while the level is `> 0.05`;
Phase 2 then pauses/captures, transfers the final state, and resumes on the
target.  `fuel` bounds the Phase-1 loop; `none` models non-convergence. -/
def execute_planned_migration (levels : ℕ → ℚ) (fuel : ℕ) :
    Option (List MigrationEvent) :=
  Option.map (fun obs =>
      MigrationEvent.initiateTurboCatchup ::
        (obs.map MigrationEvent.observeBufferLevel ++
          [MigrationEvent.pauseAndCaptureFinalState,
           MigrationEvent.transferFinalState,
           MigrationEvent.resumeVmOnTarget]))
    (pollUntilLE (1/20) levels fuel 0)

/-- Claim C4 counterexample: the Phase-1 loop exits as soon as the buffer
level is at most 0.05, not strictly below it.  With every poll returning
exactly 1/20, Phase 2 runs — the VM is paused, captured, transferred and
resumed on the target — although no observation was ever strictly below
1/20. -/
theorem execute_planned_migration_exits_at_equal_threshold :
    execute_planned_migration (fun _ => 1/20) 1 =
        some [MigrationEvent.initiateTurboCatchup,
          MigrationEvent.observeBufferLevel (1/20),
          MigrationEvent.pauseAndCaptureFinalState,
          MigrationEvent.transferFinalState,
          MigrationEvent.resumeVmOnTarget] ∧
      ¬ ((1 : ℚ)/20 < 1/20) := by
  constructor
  · norm_num [execute_planned_migration, pollUntilLE]
  · norm_num

/-- Claim C4 amended: in every completed migration trace, all of Phase 2
(pause/capture, transfer, resume on target, in that order) comes strictly
after the convergence poll exits, and the exiting observation is at most
0.05 (not necessarily strictly below); every earlier observation was above
0.05. -/
theorem execute_planned_migration_phase_order
    (levels : ℕ → ℚ) (fuel : ℕ) (trace : List MigrationEvent)
    (h : execute_planned_migration levels fuel = some trace) :
    ∃ (pre : List ℚ) (final : ℚ), trace =
        MigrationEvent.initiateTurboCatchup ::
          (pre.map MigrationEvent.observeBufferLevel ++
            (MigrationEvent.observeBufferLevel final ::
              [MigrationEvent.pauseAndCaptureFinalState,
               MigrationEvent.transferFinalState,
               MigrationEvent.resumeVmOnTarget])) ∧
      final ≤ 1/20 ∧ ∀ q ∈ pre, 1/20 < q := by
  rw [execute_planned_migration] at h
  cases hrec : pollUntilLE (1/20) levels fuel 0 with
  | none => rw [hrec] at h; simp at h
  | some obs =>
    rw [hrec] at h
    simp only [Option.map_some', Option.some.injEq] at h
    obtain ⟨pre, final, rfl, hfin, hpre⟩ :=
      pollUntilLE_spec (1/20) levels fuel 0 obs hrec
    refine ⟨pre, final, ?_, hfin, hpre⟩
    rw [← h]
    simp

/-- Claim C4 witness: the amended ordering applied to the trace produced by
a single poll that immediately observes buffer level 0. -/
theorem execute_planned_migration_phase_order_witness :
    ∃ (pre : List ℚ) (final : ℚ),
      ([MigrationEvent.initiateTurboCatchup,
        MigrationEvent.observeBufferLevel 0,
        MigrationEvent.pauseAndCaptureFinalState,
        MigrationEvent.transferFinalState,
        MigrationEvent.resumeVmOnTarget] : List MigrationEvent) =
          MigrationEvent.initiateTurboCatchup ::
            (pre.map MigrationEvent.observeBufferLevel ++
              (MigrationEvent.observeBufferLevel final ::
                [MigrationEvent.pauseAndCaptureFinalState,
                 MigrationEvent.transferFinalState,
                 MigrationEvent.resumeVmOnTarget])) ∧
        final ≤ 1/20 ∧ ∀ q ∈ pre, 1/20 < q :=
  execute_planned_migration_phase_order (fun _ => 0) 1
    [MigrationEvent.initiateTurboCatchup,
     MigrationEvent.observeBufferLevel 0,
     MigrationEvent.pauseAndCaptureFinalState,
     MigrationEvent.transferFinalState,
     MigrationEvent.resumeVmOnTarget]
    (by norm_num [execute_planned_migration, pollUntilLE])

/-- Events issued by `AdaptiveThrottlingController::emergency_pause_vm`
(adaptive-throttling-system.rs:114-132), in program order. -/
inductive EmergencyEvent where
  | pauseVmExecution
  | observeBufferLevel (level : ℚ)
  | resumeVmExecution
  | discardOldestPages
deriving DecidableEq

/-- `AdaptiveThrottlingController::emergency_pause_vm`
(adaptive-throttling-system.rs:114-132) as the trace of its collaborator
calls.  When `emergency_pause_enabled`: pause, poll `get_buffer_level`
(values supplied by `levels`) while the level is `> 0.8` (sleeping 100 ms
between polls), then resume.  Otherwise: discard the oldest buffered pages.
`fuel` bounds the drain loop; `none` models the buffer never draining.
(The `AdaptiveReplicationController::emergency_pause_vm` copy at
distributed-ram-system.rs:264-277 contains only the enabled branch; its
caller checks the flag instead.) -/
def emergency_pause_vm (emergency_pause_enabled : Bool) (levels : ℕ → ℚ)
    (fuel : ℕ) : Option (List EmergencyEvent) :=
  if emergency_pause_enabled then
    Option.map (fun obs =>
        EmergencyEvent.pauseVmExecution ::
          (obs.map EmergencyEvent.observeBufferLevel ++
            [EmergencyEvent.resumeVmExecution]))
      (pollUntilLE (4/5) levels fuel 0)
  else
    some [EmergencyEvent.discardOldestPages]

/-- Claim C6 counterexample: the drain loop exits as soon as the buffer
level is at most 0.8, not strictly below it.  With the single poll returning
exactly 4/5, the VM is resumed although no observation was strictly below
4/5. -/
theorem emergency_pause_vm_exits_at_equal_level :
    emergency_pause_vm true (fun _ => 4/5) 1 =
        some [EmergencyEvent.pauseVmExecution,
          EmergencyEvent.observeBufferLevel (4/5),
          EmergencyEvent.resumeVmExecution] ∧
      ¬ ((4 : ℚ)/5 < 4/5) := by
  constructor
  · norm_num [emergency_pause_vm, pollUntilLE]
  · norm_num

/-- Claim C6 amended: when `emergency_pause_enabled` is true, the VM is
paused and resumed only after a polled observation at most 0.8 (not
necessarily strictly below; polling at the fixed 100 ms interval), every
earlier observation being above 0.8; when the flag is false the VM is not
paused and the oldest buffered pages are dropped instead — both behaviours
selected by the flag. -/
theorem emergency_pause_vm_behavior (emergency_pause_enabled : Bool)
    (levels : ℕ → ℚ) (fuel : ℕ) (trace : List EmergencyEvent)
    (h : emergency_pause_vm emergency_pause_enabled levels fuel = some trace) :
    (emergency_pause_enabled = true →
      ∃ (pre : List ℚ) (final : ℚ), trace =
          EmergencyEvent.pauseVmExecution ::
            (pre.map EmergencyEvent.observeBufferLevel ++
              (EmergencyEvent.observeBufferLevel final ::
                [EmergencyEvent.resumeVmExecution])) ∧
        final ≤ 4/5 ∧ ∀ q ∈ pre, 4/5 < q) ∧
    (emergency_pause_enabled = false →
      trace = [EmergencyEvent.discardOldestPages] ∧
        EmergencyEvent.pauseVmExecution ∉ trace) := by
  cases emergency_pause_enabled with
  | false =>
    rw [emergency_pause_vm] at h
    simp only [if_neg Bool.false_ne_true, Option.some.injEq] at h
    subst h
    exact ⟨fun hc => absurd hc Bool.false_ne_true, fun _ => ⟨rfl, by simp⟩⟩
  | true =>
    refine ⟨fun _ => ?_, fun hc => by simp at hc⟩
    rw [emergency_pause_vm, if_pos rfl] at h
    cases hrec : pollUntilLE (4/5) levels fuel 0 with
    | none => rw [hrec] at h; simp at h
    | some obs =>
      rw [hrec] at h
      simp only [Option.map_some', Option.some.injEq] at h
      obtain ⟨pre, final, rfl, hfin, hpre⟩ :=
        pollUntilLE_spec (4/5) levels fuel 0 obs hrec
      refine ⟨pre, final, ?_, hfin, hpre⟩
      rw [← h]
      simp

/-- Claim C6 witness: the amended behaviour applied with the pause enabled
and a single poll that immediately observes buffer level 0. -/
theorem emergency_pause_vm_behavior_witness :
    (true = true →
      ∃ (pre : List ℚ) (final : ℚ),
        ([EmergencyEvent.pauseVmExecution,
          EmergencyEvent.observeBufferLevel 0,
          EmergencyEvent.resumeVmExecution] : List EmergencyEvent) =
            EmergencyEvent.pauseVmExecution ::
              (pre.map EmergencyEvent.observeBufferLevel ++
                (EmergencyEvent.observeBufferLevel final ::
                  [EmergencyEvent.resumeVmExecution])) ∧
          final ≤ 4/5 ∧ ∀ q ∈ pre, 4/5 < q) ∧
    (true = false →
      ([EmergencyEvent.pauseVmExecution,
        EmergencyEvent.observeBufferLevel 0,
        EmergencyEvent.resumeVmExecution] : List EmergencyEvent) =
          [EmergencyEvent.discardOldestPages] ∧
        EmergencyEvent.pauseVmExecution ∉
          ([EmergencyEvent.pauseVmExecution,
            EmergencyEvent.observeBufferLevel 0,
            EmergencyEvent.resumeVmExecution] : List EmergencyEvent)) :=
  emergency_pause_vm_behavior true (fun _ => 0) 1
    [EmergencyEvent.pauseVmExecution,
     EmergencyEvent.observeBufferLevel 0,
     EmergencyEvent.resumeVmExecution]
    (by norm_num [emergency_pause_vm, pollUntilLE])

/-- `DistributedRAMManager::select_best_backup_node`
(distributed-ram-system.rs:430-434): despite its name and the call-site
comment "Select best backup node based on replication lag"
(distributed-ram-system.rs:162), it returns the first node of the list
(`_nodes.first()`) and consults no lag at all; an empty list yields
`BackupNodeError`. -/
def select_best_backup_node (nodes : List BackupNode) (_vm_id : VMId) :
    Except DistributedRAMError BackupNode :=
  match nodes.head? with
  | some node => Except.ok node
  | none => Except.error
      (DistributedRAMError.BackupNodeError "No backup nodes available")

/-- Calls issued on the selected backup by
`DistributedRAMManager::handle_unplanned_failover`, in program order. -/
inductive FailoverEvent where
  | promoteToPrimary (node : BackupNode)
  | applyRemainingPages (node : BackupNode)
  | resumeVm (node : BackupNode)
deriving DecidableEq

/-- `DistributedRAMManager::handle_unplanned_failover`
(distributed-ram-system.rs:161-177) as the trace of the calls it makes on
the selected backup node: select, then promote to primary, apply the
remaining buffered pages, and resume the VM, in that order. -/
def handle_unplanned_failover (nodes : List BackupNode) (vm_id : VMId) :
    Except DistributedRAMError (List FailoverEvent) :=
  match select_best_backup_node nodes vm_id with
  | Except.ok best =>
      Except.ok [FailoverEvent.promoteToPrimary best,
        FailoverEvent.applyRemainingPages best,
        FailoverEvent.resumeVm best]
  | Except.error e => Except.error e

/-- The selection rule the spec prescribes, stated from the spec's words
("selects the backup node with the best (lowest) replication lag among
current backups") as a refinement target to compare the source against:
the argmin of the externally tracked lag. -/
def spec_lowest_lag_backup (nodes : List BackupNode) (lag : BackupNode → ℕ) :
    Option BackupNode :=
  nodes.argmin lag

/-- Replication lags of the spec's failover example:
`{A: 50ms, B: 10ms, C: 30ms}`. -/
def failover_example_lag : BackupNode → ℕ :=
  fun n => if n.id = "A" then 50 else if n.id = "B" then 10 else 30

/-- Claim C5: on the spec's own example the code promotes node A — the first
element of the backup list — and then applies pages and resumes on A, even
though B has the lowest replication lag; `select_best_backup_node` never
reads a lag, contradicting the comment it is called under. -/
theorem handle_unplanned_failover_ignores_lag :
    handle_unplanned_failover [⟨"A"⟩, ⟨"B"⟩, ⟨"C"⟩] "vm-1" =
        Except.ok [FailoverEvent.promoteToPrimary ⟨"A"⟩,
          FailoverEvent.applyRemainingPages ⟨"A"⟩,
          FailoverEvent.resumeVm ⟨"A"⟩] ∧
      spec_lowest_lag_backup [⟨"A"⟩, ⟨"B"⟩, ⟨"C"⟩] failover_example_lag =
        some ⟨"B"⟩ ∧
      (⟨"A"⟩ : BackupNode) ≠ ⟨"B"⟩ := by
  refine ⟨rfl, ?_, by decide⟩
  decide

/-- `AdaptiveReplicationController` (distributed-ram-system.rs:181-193):
per-VM buffer sizes and replication lags, the `HashMap`s modelled as
association lists. -/
structure AdaptiveReplicationController where
  config : DistributedRAMConfig
  buffer_levels : List (VMId × ℕ)
  replication_lags : List (VMId × ℕ)
deriving DecidableEq

/-- `AdaptiveReplicationController::get_buffer_level`
(distributed-ram-system.rs:417, same stub at
adaptive-throttling-system.rs:140): the shipped code ignores both the
controller state and the VM id and returns `Ok(0.5)` — it neither computes
`buffer_size / max_buffer_size` nor reports an unknown VM. -/
def AdaptiveReplicationController.get_buffer_level
    (_self : AdaptiveReplicationController) (_vm_id : VMId) :
    Except DistributedRAMError ℚ :=
  Except.ok (1/2)

/-- A well-formed sample configuration (1 GiB buffer, threshold 7/10,
maximum intensity 9/10, linear curve). -/
def sample_config : DistributedRAMConfig :=
  { max_buffer_size := 1073741824
    throttle_threshold := 7/10
    max_throttling_intensity := 9/10
    throttling_curve := ThrottlingCurve.Linear
    emergency_pause_enabled := true
    replication_interval_ms := 100
    backup_node_count := 3 }

/-- Claim C8: a controller holding no replication state at all still answers
`Ok(1/2)` for `"vm-1"` instead of failing with the VM-not-found error — the
implementation is a constant stub. -/
theorem get_buffer_level_stub_constant :
    AdaptiveReplicationController.get_buffer_level
      ⟨sample_config, [], []⟩ "vm-1" = Except.ok (1/2) := rfl

/-- `DistributedRAMManager` (distributed-ram-system.rs:50-68), collaborator
handles omitted: configuration, backup node set, active VM ids. -/
structure DistributedRAMManager where
  config : DistributedRAMConfig
  backup_nodes : List BackupNode
  active_vms : List VMId
deriving DecidableEq

/-- `DistributedRAMManager::new` (distributed-ram-system.rs:72-84): builds
the manager from the given configuration and returns `Ok` unconditionally —
no field of the configuration is inspected, let alone validated. -/
def DistributedRAMManager.new (config : DistributedRAMConfig) :
    Except DistributedRAMError DistributedRAMManager :=
  Except.ok { config := config, backup_nodes := [], active_vms := [] }

/-- A configuration violating both invariants the spec says are enforced at
load: `throttle_threshold = 2` (not `< 1`) and
`max_throttling_intensity = 3` (`> 1`). -/
def invalid_config : DistributedRAMConfig :=
  { max_buffer_size := 1024
    throttle_threshold := 2
    max_throttling_intensity := 3
    throttling_curve := ThrottlingCurve.Linear
    emergency_pause_enabled := true
    replication_interval_ms := 100
    backup_node_count := 3 }

/-- Claim C7 counterexample: `DistributedRAMManager::new` accepts the
invalid configuration and constructs a manager from it. -/
theorem new_accepts_invalid_config :
    ¬ invalid_config.throttle_threshold < 1 ∧
      1 < invalid_config.max_throttling_intensity ∧
      DistributedRAMManager.new invalid_config =
        Except.ok ⟨invalid_config, [], []⟩ :=
  ⟨by norm_num [invalid_config], by norm_num [invalid_config], rfl⟩

/-- Claim C7 amended: configuration loading performs no validation —
`DistributedRAMManager::new` returns `Ok` and constructs a manager for
every configuration, including those with `throttle_threshold ≥ 1.0` or
`max_throttling_intensity > 1.0` (and `AdaptiveThrottlingController::new`
is not even fallible). -/
theorem new_accepts_every_config (config : DistributedRAMConfig) :
    ∃ manager, DistributedRAMManager.new config = Except.ok manager :=
  ⟨_, rfl⟩

/-- Helper: with at least two control points and strictly ascending `x`
coordinates, the interpolation scan returns exactly the `y` of any control
point whose `x` equals the queried level — the first window bracketing the
level has the point as an endpoint, and the interpolation weight there is
exactly 0 or 1. -/
theorem interpolate_custom_curve_at_control_point (M : ℚ) :
    ∀ pts : List (ℚ × ℚ), pts.Pairwise (fun p q => p.1 < q.1) →
      2 ≤ pts.length → ∀ x y : ℚ, (x, y) ∈ pts →
        interpolate_custom_curve M x pts = y := by
  intro pts
  induction pts with
  | nil => intro _ hlen; simp at hlen
  | cons p rest ih =>
    intro hpair hlen x y hmem
    cases rest with
    | nil => simp at hlen
    | cons q rest2 =>
      obtain ⟨x1, y1⟩ := p
      obtain ⟨x2, y2⟩ := q
      have hx12 : x1 < x2 :=
        (List.pairwise_cons.mp hpair).1 (x2, y2) (by simp)
      rcases List.mem_cons.mp hmem with heq | hmem2
      · rw [Prod.mk.injEq] at heq
        obtain ⟨rfl, rfl⟩ := heq
        rw [interpolate_custom_curve,
          if_pos ⟨le_refl x, le_of_lt hx12⟩]
        rw [sub_self, zero_div, zero_mul, add_zero]
      · rcases List.mem_cons.mp hmem2 with heq2 | hmem3
        · rw [Prod.mk.injEq] at heq2
          obtain ⟨rfl, rfl⟩ := heq2
          rw [interpolate_custom_curve,
            if_pos ⟨le_of_lt hx12, le_refl x⟩]
          rw [div_self (ne_of_gt (sub_pos.mpr hx12)), one_mul]
          ring
        · have hx2x : x2 < x :=
            (List.pairwise_cons.mp (List.pairwise_cons.mp hpair).2).1
              (x, y) hmem3
          rw [interpolate_custom_curve,
            if_neg (fun hc => absurd hc.2 (not_le.mpr hx2x))]
          have hr2 : 0 < rest2.length :=
            List.length_pos.mpr (List.ne_nil_of_mem hmem3)
          exact ih (List.pairwise_cons.mp hpair).2
            (by simp only [List.length_cons]; omega) x y hmem2

/-- Claim C9 counterexample: a `Custom` curve with a single control point
`(1/2, 1/4)` never enters the window scan (`windows(2)` is empty), so at
`buffer_level = threshold + x*(1-threshold) = 3/4` the evaluator returns the
fail-safe `max_throttling_intensity = 9/10`, not the control point's
`y = 1/4`. -/
theorem custom_curve_single_point_no_round_trip :
    calculate_throttling_intensity
        ⟨1/2, 9/10, ThrottlingCurve.Custom [(1/2, 1/4)], true⟩
        (1/2 + (1/2) * (1 - 1/2)) = 9/10 ∧
      ((1 : ℚ)/2, (1 : ℚ)/4) ∈ [((1 : ℚ)/2, (1 : ℚ)/4)] ∧
      (9 : ℚ)/10 ≠ 1/4 := by
  refine ⟨?_, by simp, by norm_num⟩
  norm_num [calculate_throttling_intensity, interpolate_custom_curve]

/-- Claim C9 amended: the round trip holds for every control point with
`x > 0` of a `Custom` curve that has at least two control points with
strictly ascending `x` coordinates (given `throttle_threshold < 1`):
evaluating at `buffer_level = threshold + x*(1-threshold)` returns exactly
`y`.  (A control point with `x = 0` lands on the threshold itself, where the
evaluator returns 0, and a single-point curve never enters the window
scan.) -/
theorem calculate_throttling_intensity_custom_round_trip
    (config : AdaptiveThrottlingConfig) (pts : List (ℚ × ℚ)) (x y : ℚ)
    (hcurve : config.throttling_curve = ThrottlingCurve.Custom pts)
    (hthr : config.throttle_threshold < 1)
    (hsorted : pts.Pairwise (fun p q => p.1 < q.1))
    (hlen : 2 ≤ pts.length)
    (hmem : (x, y) ∈ pts) (hx : 0 < x) :
    calculate_throttling_intensity config
      (config.throttle_threshold + x * (1 - config.throttle_threshold))
      = y := by
  have hd : 0 < 1 - config.throttle_threshold := by linarith
  have hnorm : (config.throttle_threshold
      + x * (1 - config.throttle_threshold)
      - config.throttle_threshold) / (1 - config.throttle_threshold) = x := by
    rw [add_sub_cancel_left, mul_div_assoc, div_self (ne_of_gt hd), mul_one]
  rw [calculate_throttling_intensity,
    if_neg (by nlinarith [mul_pos hx hd])]
  simp only [hcurve, hnorm]
  exact interpolate_custom_curve_at_control_point
    config.max_throttling_intensity pts hsorted hlen x y hmem

/-- Claim C9 witness: the amended round trip at the two-point curve
`[(1/4, 1/10), (1, 9/10)]` with threshold 1/2, at the control point
`(1/4, 1/10)`. -/
theorem calculate_throttling_intensity_custom_round_trip_witness :
    calculate_throttling_intensity
        ⟨1/2, 9/10, ThrottlingCurve.Custom [(1/4, 1/10), (1, 9/10)], true⟩
        ((1 : ℚ)/2 + (1/4) * (1 - 1/2)) = 1/10 :=
  calculate_throttling_intensity_custom_round_trip
    ⟨1/2, 9/10, ThrottlingCurve.Custom [(1/4, 1/10), (1, 9/10)], true⟩
    [(1/4, 1/10), (1, 9/10)] (1/4) (1/10) rfl (by norm_num)
    (by norm_num [List.pairwise_cons]) (by norm_num) (by norm_num)
    (by norm_num)

end Mycelium

